import Mathlib

/-!
Verification of the node-launcher configuration resolver
(`src/node_launcher.launch.py`): namespace resolution over a nested
single-key document, URI-style path expansion of parameter values, and
remapping expansion with the fixed 5-suffix action fan-out.

The Python data (parsed YAML) is embedded as the inductive `YVal`;
Python dicts become ordered association lists, Python `None` becomes
`YVal.null`.  Raised `ValueError`s are embedded as `Except` errors with
structured payloads carrying exactly the data interpolated into the
Python message.  `re.search` on the two fixed patterns is embedded
character-by-character with Python's leftmost / greedy / dot-excludes-
newline semantics.
-/

/-- Embedding of a parsed YAML/JSON value as handled by the launcher:
strings, numbers, booleans, `None`, lists, and insertion-ordered
dictionaries (association lists). -/
inductive YVal where
  | str (s : String)
  | int (n : Int)
  | bool (b : Bool)
  | null
  | list (items : List YVal)
  | map (entries : List (String × YVal))

/-- Python `d.get(key)` / `d[key]` on an insertion-ordered dict embedded as
an association list: first binding wins. -/
def lookupKey (entries : List (String × YVal)) (key : String) : Option YVal :=
  match entries with
  | [] => Option.none
  | (k, v) :: rest => if k = key then some v else lookupKey rest key

/-- Python `type(v).__name__` for the embedded values. -/
def pyTypeName (v : YVal) : String :=
  match v with
  | .str _ => "str"
  | .int _ => "int"
  | .bool _ => "bool"
  | .null => "NoneType"
  | .list _ => "list"
  | .map _ => "dict"

/-- Structured payloads of the `ValueError`s raised by
`get_node_config_and_ns` (the spec's StructuralError taxonomy), carrying
the data interpolated into each Python message. -/
inductive StructuralError where
  | notADict
  | wrongKeyCount (keys : List String)
  | innerNotDict (key : String)
  | rosParamsNotDict (key : String)

/-- Namespace accumulation step from `get_node_config_and_ns`:
`f"{namespace}/{current_key}" if namespace else current_key`. -/
def nsStep (ns k : String) : String := if ns = "" then k else ns ++ "/" ++ k

/-- Embedding of `get_node_config_and_ns` (src/node_launcher.launch.py,
lines 149-209): descend single-key levels accumulating the namespace
until the single value is a dict containing key `ros__parameters` whose
value is a dict; return that level (still keyed by the node name)
together with the accumulated namespace. -/
def get_node_config_and_ns (yaml_config : YVal) (ns : String) :
    Except StructuralError (YVal × String) :=
  match yaml_config with
  | .map entries =>
    match entries with
    | [(current_key, inner)] =>
      match inner with
      | .map inner_entries =>
        match lookupKey inner_entries "ros__parameters" with
        | some (.map _) => .ok (.map [(current_key, .map inner_entries)], ns)
        | some _ => .error (.rosParamsNotDict current_key)
        | Option.none =>
          get_node_config_and_ns (.map inner_entries) (nsStep ns current_key)
      | _ => .error (.innerNotDict current_key)
    | _ => .error (.wrongKeyCount (entries.map Prod.fst))
  | _ => .error .notADict

/-- Document of nested single-key levels: `nestDoc [k1, .., kn] v` is the
mapping `{k1: {k2: ... {kn: v}}}`. -/
def nestDoc : List String → YVal → YVal
  | [], v => v
  | k :: ks, v => .map [(k, nestDoc ks v)]

/-- The plain "/"-joined chain of keys of the specification: no leading
or trailing separator, empty string for the empty chain. -/
def slashJoin : List String → String
  | [] => ""
  | [k] => k
  | k :: k2 :: ks => k ++ "/" ++ slashJoin (k2 :: ks)

/-! ## Remapping expansion -/

/-- Python `str.isspace()` character test used by `str.strip()`: the
full set of code points CPython treats as whitespace — tab, newline,
vertical tab, form feed, carriage return, the file/group/record/unit
separators 1C-1F, the space, NEL 85, NBSP A0, Ogham space mark 1680,
the en-quad..hair-space range 2000-200A, the line separator 2028, the
paragraph separator 2029, narrow NBSP 202F, medium mathematical space
205F, and ideographic space 3000. -/
def pyIsSpace (c : Char) : Bool :=
  c == '\t' || c == '\n' || c == '\x0B' || c == '\x0C' || c == '\r' ||
  c == '\x1C' || c == '\x1D' || c == '\x1E' || c == '\x1F' ||
  c == ' ' || c == '\x85' || c == '\xA0' || c == '\u1680' ||
  c == '\u2000' || c == '\u2001' || c == '\u2002' || c == '\u2003' ||
  c == '\u2004' || c == '\u2005' || c == '\u2006' || c == '\u2007' ||
  c == '\u2008' || c == '\u2009' || c == '\u200A' ||
  c == '\u2028' || c == '\u2029' || c == '\u202F' || c == '\u205F' || c == '\u3000'

/-- Python `str.strip()`: remove whitespace from both ends. -/
def pyStrip (s : String) : String :=
  String.mk (((s.data.dropWhile pyIsSpace).reverse.dropWhile pyIsSpace).reverse)

/-- Python `str.split(sep)` with a one-character separator: split on every
occurrence, keeping empty pieces (`":b".split(":") == ["", "b"]`,
`"".split(":") == [""]`). -/
def pySplitChar (sep : Char) : List Char → List (List Char)
  | [] => [[]]
  | c :: cs =>
    let r := pySplitChar sep cs
    if c = sep then [] :: r
    else
      match r with
      | h :: t => (c :: h) :: t
      | [] => [[c]]

/-- Python `item.split(":")` on a string value. -/
def pySplitColon (s : String) : List String :=
  (pySplitChar ':' s.data).map String.mk

/-- Structured payloads of the `ValueError`s raised by `get_remappings`
and `get_remappings_for_actions` (the spec's ValidationError taxonomy),
carrying the data interpolated into each Python message. -/
inductive ValidationError where
  | notADict
  | sectionNotList (section_name : String)
  | entryNotString (section_name : String) (type_name : String)
  | invalidFormat (section_name : String) (item : String)
  | emptyField (section_name : String) (item : String)
  | actionsNotList
  | actionEntryNotString (type_name : String)
  | actionInvalidFormat (item : String)
  | actionEmptyField (item : String)

/-- Loop body of `parse_section` (src/node_launcher.launch.py, lines
282-294): parse each entry of one `topics`/`services` list into a
`(from, to)` pair, raising on the first invalid entry. -/
def goSection (section_name : String) : List YVal →
    Except ValidationError (List (String × String))
  | [] => .ok []
  | .str s :: rest =>
    match pySplitColon s with
    | [a, b] =>
      if pyStrip a = "" || pyStrip b = "" then
        .error (.emptyField section_name s)
      else
        match goSection section_name rest with
        | .ok l => .ok ((pyStrip a, pyStrip b) :: l)
        | .error e => .error e
    | [] => .error (.invalidFormat section_name s)
    | [_] => .error (.invalidFormat section_name s)
    | _ :: _ :: _ :: _ => .error (.invalidFormat section_name s)
  | .int n :: _ => .error (.entryNotString section_name (pyTypeName (.int n)))
  | .bool b :: _ => .error (.entryNotString section_name (pyTypeName (.bool b)))
  | .null :: _ => .error (.entryNotString section_name (pyTypeName .null))
  | .list l :: _ => .error (.entryNotString section_name (pyTypeName (.list l)))
  | .map m :: _ => .error (.entryNotString section_name (pyTypeName (.map m)))

/-- Embedding of the inner function `parse_section` of `get_remappings`
(src/node_launcher.launch.py, lines 274-294): absent section or `None`
section contributes nothing; a non-list section is an error; otherwise
each string entry is split on all `:`, required to give exactly 2 parts,
both non-empty after stripping. -/
def parse_section (ros_remappings : List (String × YVal)) (section_name : String) :
    Except ValidationError (List (String × String)) :=
  match lookupKey ros_remappings section_name with
  | Option.none => .ok []
  | some .null => .ok []
  | some (.list items) => goSection section_name items
  | some (.str _) => .error (.sectionNotList section_name)
  | some (.int _) => .error (.sectionNotList section_name)
  | some (.bool _) => .error (.sectionNotList section_name)
  | some (.map _) => .error (.sectionNotList section_name)

/-- The five fixed ROS 2 action sub-interface suffixes
(src/node_launcher.launch.py, lines 344-350), in source order. -/
def actionSuffixes : List String :=
  ["/_action/feedback",
   "/_action/status",
   "/_action/cancel_goal",
   "/_action/get_result",
   "/_action/send_goal"]

/-- Loop body of `get_remappings_for_actions` (src/node_launcher.launch.py,
lines 356-371): parse each `"from:to"` entry and fan it out over the five
action suffixes. -/
def goActions : List YVal → Except ValidationError (List (String × String))
  | [] => .ok []
  | .str s :: rest =>
    match pySplitColon s with
    | [a, b] =>
      if pyStrip a = "" || pyStrip b = "" then
        .error (.actionEmptyField s)
      else
        match goActions rest with
        | .ok l => .ok (actionSuffixes.map (fun suf => (pyStrip a ++ suf, pyStrip b ++ suf)) ++ l)
        | .error e => .error e
    | [] => .error (.actionInvalidFormat s)
    | [_] => .error (.actionInvalidFormat s)
    | _ :: _ :: _ :: _ => .error (.actionInvalidFormat s)
  | .int n :: _ => .error (.actionEntryNotString (pyTypeName (.int n)))
  | .bool b :: _ => .error (.actionEntryNotString (pyTypeName (.bool b)))
  | .null :: _ => .error (.actionEntryNotString (pyTypeName .null))
  | .list l :: _ => .error (.actionEntryNotString (pyTypeName (.list l)))
  | .map m :: _ => .error (.actionEntryNotString (pyTypeName (.map m)))

/-- Embedding of `get_remappings_for_actions` (src/node_launcher.launch.py,
lines 305-373). -/
def get_remappings_for_actions (actions_yaml : YVal) :
    Except ValidationError (List (String × String)) :=
  match actions_yaml with
  | .null => .ok []
  | .list items => goActions items
  | .str _ => .error .actionsNotList
  | .int _ => .error .actionsNotList
  | .bool _ => .error .actionsNotList
  | .map _ => .error .actionsNotList

/-- Embedding of `get_remappings` (src/node_launcher.launch.py, lines
212-302): `None` gives the empty list, a non-dict is an error, otherwise
the `topics` and `services` sections are parsed by `parse_section` and a
present `actions` key is expanded by `get_remappings_for_actions`, in
that order. -/
def get_remappings (ros_remappings : YVal) :
    Except ValidationError (List (String × String)) :=
  match ros_remappings with
  | .null => .ok []
  | .map rm =>
    match parse_section rm "topics" with
    | .error e => .error e
    | .ok topics =>
      match parse_section rm "services" with
      | .error e => .error e
      | .ok services =>
        match lookupKey rm "actions" with
        | Option.none => .ok (topics ++ services)
        | some acts =>
          match get_remappings_for_actions acts with
          | .error e => .error e
          | .ok actions => .ok (topics ++ services ++ actions)
  | _ => .error .notADict

/-! ## Path expansion

Embedding of `expand_filenames` (src/node_launcher.launch.py, lines
97-146).  The two regular expressions `package://([^/]+)/(.+)` and
`file://(/.+)` are applied with `re.search`, i.e. unanchored leftmost
match; `[^/]` matches any character except `/` (newline included) while
`.` matches any character except newline, and both quantified groups are
greedy.  Since the character class runs cannot backtrack past their
boundary characters, a match attempt at a fixed position succeeds
exactly as computed below. -/

/-- The literal `package://` of pattern 1. -/
def pkgScheme : List Char := "package://".data

/-- The literal `file://` of pattern 2. -/
def fileScheme : List Char := "file://".data

/-- Match attempt of `package://([^/]+)/(.+)` at the start of `s`,
returning the two groups: the maximal non-`/` run after the scheme
(must be non-empty), then a literal `/`, then the maximal non-newline
run (must be non-empty). -/
def matchPkgHere (s : List Char) : Option (List Char × List Char) :=
  if pkgScheme.isPrefixOf s then
    let t := s.drop pkgScheme.length
    let pkg := t.takeWhile (fun c => c != '/')
    match t.drop pkg.length with
    | '/' :: after =>
      let rest := after.takeWhile (fun c => c != '\n')
      if pkg.isEmpty || rest.isEmpty then Option.none else some (pkg, rest)
    | _ => Option.none
  else Option.none

/-- Leftmost-search of pattern 1, trying every start position from the
left as `re.search` does. -/
def searchPkgAux : List Char → Option (List Char × List Char)
  | [] => Option.none
  | c :: cs =>
    match matchPkgHere (c :: cs) with
    | some r => some r
    | Option.none => searchPkgAux cs

/-- `re.search(r"package://([^/]+)/(.+)", s)`: the two matched groups of
the leftmost match, if any. -/
def searchPkg (s : String) : Option (String × String) :=
  (searchPkgAux s.data).map (fun pr => (String.mk pr.1, String.mk pr.2))

/-- Match attempt of `file://(/.+)` at the start of `s`, returning the
single group: a `/` directly after the scheme followed by the maximal
non-newline run (must be non-empty). -/
def matchFileHere (s : List Char) : Option (List Char) :=
  if fileScheme.isPrefixOf s then
    match s.drop fileScheme.length with
    | '/' :: after =>
      let rest := after.takeWhile (fun c => c != '\n')
      if rest.isEmpty then Option.none else some ('/' :: rest)
    | _ => Option.none
  else Option.none

/-- Leftmost-search of pattern 2. -/
def searchFileAux : List Char → Option (List Char)
  | [] => Option.none
  | c :: cs =>
    match matchFileHere (c :: cs) with
    | some r => some r
    | Option.none => searchFileAux cs

/-- `re.search(r"file://(/.+)", s)`: the matched group of the leftmost
match, if any. -/
def searchFile (s : String) : Option String :=
  (searchFileAux s.data).map String.mk

/-- Python `s.startswith("/")`: the first character is a slash. -/
def startsWithSlash (s : String) : Bool :=
  match s.data with
  | '/' :: _ => true
  | _ => false

/-- Python `s.endswith("/")`: the last character is a slash. -/
def endsWithSlash (s : String) : Bool :=
  match s.data.reverse with
  | '/' :: _ => true
  | _ => false

/-- Python `os.path.join(a, b)` (posixpath, two arguments): an absolute
second argument discards the first; otherwise concatenate, inserting a
`/` unless `a` is empty or already ends with one. -/
def pathJoin (a b : String) : String :=
  if startsWithSlash b then b
  else if a = "" || endsWithSlash a then a ++ b
  else a ++ "/" ++ b

/-- Per-string body of the `expand_filenames` loop (src/node_launcher.
launch.py, lines 135-146): try pattern 1 first and rewrite with
`os.path.join(get_package_share_directory(pkg), rest)` (a failing
package lookup aborts, modelled as `Option.none`); otherwise try
pattern 2 and rewrite with its group; otherwise keep the value. -/
def expandString (lookup : String → Option String) (value : String) : Option String :=
  match searchPkg value with
  | some (pkg, rest) =>
    match lookup pkg with
    | some dir => some (pathJoin dir rest)
    | Option.none => Option.none
  | Option.none =>
    match searchFile value with
    | some path => some path
    | Option.none => some value

mutual

/-- Treatment of one dict value by the `expand_filenames` loop
(src/node_launcher.launch.py, lines 127-146): recurse into dict values,
rewrite string values, and leave every other value (numbers, booleans,
`None`, lists) untouched — list elements are not descended into. -/
def expandValue (lookup : String → Option String) : YVal → Option YVal
  | .map inner =>
    match expandEntries lookup inner with
    | some inner2 => some (.map inner2)
    | Option.none => Option.none
  | .str s =>
    match expandString lookup s with
    | some s2 => some (.str s2)
    | Option.none => Option.none
  | .int n => some (.int n)
  | .bool b => some (.bool b)
  | .null => some .null
  | .list l => some (.list l)

/-- Dictionary traversal of `expand_filenames`: rewrite each binding in
order. -/
def expandEntries (lookup : String → Option String) :
    List (String × YVal) → Option (List (String × YVal))
  | [] => some []
  | (k, v) :: rest =>
    match expandValue lookup v, expandEntries lookup rest with
    | some v2, some rest2 => some ((k, v2) :: rest2)
    | _, _ => Option.none

end

/-- Embedding of `expand_filenames` (src/node_launcher.launch.py, lines
97-146): the in-place mutation of the parameter dict is modelled as
returning the rewritten value; a non-dict argument is returned
unchanged (the Python function returns without mutating). -/
def expand_filenames (lookup : String → Option String) (yaml_parameters : YVal) :
    Option YVal :=
  match yaml_parameters with
  | .map entries =>
    match expandEntries lookup entries with
    | some entries2 => some (.map entries2)
    | Option.none => Option.none
  | .str s => some (.str s)
  | .int n => some (.int n)
  | .bool b => some (.bool b)
  | .null => some .null
  | .list l => some (.list l)

/-- Package lookup collaborator used by the concrete test cases of the
specification: knows only package `foo` at `/opt/foo`. -/
def fooLookup (name : String) : Option String :=
  if name = "foo" then some "/opt/foo" else Option.none

/-! ## Namespace resolver: chain documents -/

theorem resolve_nest (node : String) (inner p : List (String × YVal))
    (hnode : node ≠ "ros__parameters")
    (hmark : lookupKey inner "ros__parameters" = some (.map p)) :
    ∀ (ks : List String) (ns : String), (∀ k ∈ ks, k ≠ "ros__parameters") →
    get_node_config_and_ns (nestDoc ks (.map [(node, .map inner)])) ns =
      .ok (.map [(node, .map inner)], List.foldl nsStep ns ks) := by
  intro ks
  induction ks with
  | nil =>
    intro ns _
    simp [nestDoc, get_node_config_and_ns, hmark]
  | cons k ks ih =>
    intro ns hks
    have hk : ∀ x ∈ ks, x ≠ "ros__parameters" := fun x hx => hks x (List.mem_cons_of_mem _ hx)
    cases ks with
    | nil =>
      simp only [nestDoc, get_node_config_and_ns, lookupKey, if_neg hnode]
      exact ih (nsStep ns k) hk
    | cons k2 ks2 =>
      have hk2 : k2 ≠ "ros__parameters" := hk k2 (List.mem_cons_self _ _)
      simp only [nestDoc, get_node_config_and_ns, lookupKey, if_neg hk2]
      exact ih (nsStep ns k) hk

/-- Concatenation of keys each preceded by a slash. -/
def tailJoin : List String → String
  | [] => ""
  | k :: ks => "/" ++ k ++ tailJoin ks

theorem nsStep_of_ne (ns k : String) (h : ns ≠ "") : nsStep ns k = ns ++ "/" ++ k := by
  simp [nsStep, h]

theorem append_slash_ne_empty (ns k : String) : ns ++ "/" ++ k ≠ "" := by
  intro h
  have hl := congrArg String.length h
  simp [String.length_append] at hl
  exact absurd hl.1.2 (by decide)

theorem foldl_nsStep_of_ne (ks : List String) :
    ∀ ns : String, ns ≠ "" → List.foldl nsStep ns ks = ns ++ tailJoin ks := by
  induction ks with
  | nil => intro ns _; simp [tailJoin]
  | cons k ks ih =>
    intro ns h
    rw [List.foldl_cons, nsStep_of_ne ns k h, ih _ (append_slash_ne_empty ns k), tailJoin]
    simp [String.append_assoc]

theorem slashJoin_cons (ks : List String) :
    ∀ k : String, slashJoin (k :: ks) = k ++ tailJoin ks := by
  induction ks with
  | nil => intro k; simp [slashJoin, tailJoin]
  | cons k2 ks2 ih =>
    intro k
    rw [slashJoin, tailJoin, ih k2]
    simp [String.append_assoc]

theorem foldl_nsStep_empty (ks : List String) :
    List.foldl nsStep "" ks = slashJoin (ks.dropWhile (fun k => k == "")) := by
  induction ks with
  | nil => rfl
  | cons k ks ih =>
    rw [List.foldl_cons]
    by_cases hk : k = ""
    · subst hk
      rw [show nsStep "" "" = "" from rfl, ih, List.dropWhile_cons]
      simp
    · rw [show nsStep "" k = k by simp [nsStep], foldl_nsStep_of_ne ks k hk]
      have hdrop : List.dropWhile (fun k => k == "") (k :: ks) = k :: ks := by
        simp [List.dropWhile_cons, hk]
      rw [hdrop, slashJoin_cons]

/-- C1: For every document with exactly one key per level down to the
level whose single value is a mapping containing `ros__parameters`
(with a mapping value), `get_node_config_and_ns` returns that level's
mapping unchanged (still keyed by the node name) together with the
"/"-joined chain of traversed keys — amended: with leading empty keys
dropped from the join, because the accumulator treats an empty
namespace and an absent one identically. -/
theorem C1_namespace_chain :
    ∀ (ks : List String) (node : String) (inner p : List (String × YVal)),
    (∀ k ∈ ks, k ≠ "ros__parameters") → node ≠ "ros__parameters" →
    lookupKey inner "ros__parameters" = some (.map p) →
    get_node_config_and_ns (nestDoc ks (.map [(node, .map inner)])) "" =
      .ok (.map [(node, .map inner)], slashJoin (ks.dropWhile (fun k => k == ""))) := by
  intro ks node inner p hks hnode hmark
  rw [resolve_nest node inner p hnode hmark ks "" hks, foldl_nsStep_empty]

/-- C1 witness: the chain `robot/arm/arm_node` resolves to namespace
`robot/arm` with the node level returned unchanged. -/
theorem C1_namespace_chain_witness :
    get_node_config_and_ns
      (nestDoc ["robot", "arm"] (.map [("arm_node", .map [("ros__parameters", .map [])])])) "" =
      .ok (.map [("arm_node", .map [("ros__parameters", .map [])])],
        slashJoin (["robot", "arm"].dropWhile (fun k => k == ""))) :=
  C1_namespace_chain ["robot", "arm"] "arm_node" [("ros__parameters", .map [])] []
    (by decide) (by decide) rfl

/-- C1 counterexample: with the key chain `["", "a"]` the resolver
produces namespace `"a"`, but the "/"-joined chain of traversed keys is
`"/a"`, so the claim as stated fails on documents with an empty key. -/
theorem C1_namespace_chain_counterexample :
    get_node_config_and_ns
      (nestDoc ["", "a"] (.map [("n", .map [("ros__parameters", .map [])])])) "" =
      .ok (.map [("n", .map [("ros__parameters", .map [])])], "a") ∧
    slashJoin ["", "a"] ≠ "a" :=
  ⟨rfl, by decide⟩

/-- Levels visited by the recursion of `get_node_config_and_ns`: the
root, and below every single-key level whose dict value does not
contain the `ros__parameters` marker, the levels visited from that
value. -/
inductive Reaches : YVal → YVal → Prop where
  | refl (c : YVal) : Reaches c c
  | step (k : String) (m : List (String × YVal)) (d : YVal) :
      lookupKey m "ros__parameters" = Option.none →
      Reaches (.map m) d → Reaches (.map [(k, .map m)]) d

theorem reaches_wrongKeyCount (cfg d : YVal) (hr : Reaches cfg d) :
    ∀ (m : List (String × YVal)) (ns : String), d = .map m → 2 ≤ m.length →
    get_node_config_and_ns cfg ns = .error (.wrongKeyCount (m.map Prod.fst)) := by
  induction hr with
  | refl c =>
    intro m ns hd hlen
    subst hd
    cases m with
    | nil => simp at hlen
    | cons a m1 =>
      cases m1 with
      | nil => simp at hlen
      | cons b m2 => simp [get_node_config_and_ns]
  | step k m2 d hlook hr2 ih =>
    intro m ns hd hlen
    simp only [get_node_config_and_ns, hlook]
    exact ih m (nsStep ns k) hd hlen

/-- C5: for every document in which some level actually traversed by the
resolver's recursion is a mapping with two or more keys, the resolver
fails with the key-count error reporting exactly that level's key
list. -/
theorem C5_multikey_error :
    ∀ (cfg : YVal) (m : List (String × YVal)) (ns : String),
    Reaches cfg (.map m) → 2 ≤ m.length →
    get_node_config_and_ns cfg ns = .error (.wrongKeyCount (m.map Prod.fst)) :=
  fun cfg m ns hr hlen => reaches_wrongKeyCount cfg (.map m) hr m ns rfl hlen

/-- C5 witness: a two-key level one step below a marker-free single-key
root makes the resolver fail, reporting keys `x` and `y`. -/
theorem C5_multikey_error_witness :
    get_node_config_and_ns (.map [("a", .map [("x", .int 0), ("y", .int 1)])]) "" =
      .error (.wrongKeyCount ["x", "y"]) :=
  C5_multikey_error _ [("x", .int 0), ("y", .int 1)] ""
    (Reaches.step "a" [("x", .int 0), ("y", .int 1)] _ rfl (Reaches.refl _))
    (by decide)

/-! ## Remapping expansion: claims -/

/-- Valid remapping entry in the words of the specification: split on
all colons, exactly two resulting parts, both non-empty after
stripping; the parsed pair is the two stripped sides. -/
def specSplitPair (s : String) : Option (String × String) :=
  match pySplitColon s with
  | [a, b] =>
    if pyStrip a = "" || pyStrip b = "" then Option.none else some (pyStrip a, pyStrip b)
  | [] => Option.none
  | [_] => Option.none
  | _ :: _ :: _ :: _ => Option.none

/-- Parse a whole entry list with `specSplitPair`, succeeding only when
every entry is valid. -/
def parseAllPairs : List String → Option (List (String × String))
  | [] => some []
  | s :: rest =>
    match specSplitPair s, parseAllPairs rest with
    | some ft, some tl => some (ft :: tl)
    | some _, Option.none => Option.none
    | Option.none, some _ => Option.none
    | Option.none, Option.none => Option.none

/-- Fan-out in the words of the specification: each pair contributes
exactly the five `actionSuffixes`-suffixed pairs, in suffix order. -/
def specFanOut : List (String × String) → List (String × String)
  | [] => []
  | ft :: rest => actionSuffixes.map (fun suf => (ft.1 ++ suf, ft.2 ++ suf)) ++ specFanOut rest

/-- C2: for every actions list whose entries are all valid `from:to`
strings, the expander returns exactly the concatenation, in entry
order, of the five suffixed pairs of each entry, suffixes in the fixed
order `/_action/feedback`, `/_action/status`, `/_action/cancel_goal`,
`/_action/get_result`, `/_action/send_goal`, appended to both stripped
sides. -/
theorem C2_action_fanout :
    ∀ (items : List String) (ps : List (String × String)),
    parseAllPairs items = some ps →
    get_remappings_for_actions (.list (items.map YVal.str)) = .ok (specFanOut ps) := by
  intro items
  induction items with
  | nil =>
    intro ps h
    simp [parseAllPairs] at h
    subst h
    rfl
  | cons s items ih =>
    intro ps h
    cases hs : specSplitPair s with
    | none => cases hm : parseAllPairs items <;> simp [parseAllPairs, hs, hm] at h
    | some ft =>
      cases hm : parseAllPairs items with
      | none => simp [parseAllPairs, hs, hm] at h
      | some tl =>
        simp only [parseAllPairs, hs, hm, Option.some.injEq] at h
        subst h
        cases hsp : pySplitColon s with
        | nil => simp [specSplitPair, hsp] at hs
        | cons a l1 =>
          cases l1 with
          | nil => simp [specSplitPair, hsp] at hs
          | cons b l2 =>
            cases l2 with
            | cons c l3 => simp [specSplitPair, hsp] at hs
            | nil =>
              simp only [specSplitPair, hsp] at hs
              split at hs
              · exact absurd hs (by simp)
              case isFalse hcond =>
                show goActions (.str s :: items.map YVal.str) = _
                simp only [goActions, hsp, if_neg hcond]
                have hrec := ih tl hm
                rw [show goActions (items.map YVal.str) =
                    get_remappings_for_actions (.list (items.map YVal.str)) from rfl, hrec]
                simp only [Option.some.injEq] at hs
                rw [specFanOut, ← hs]

/-- C2 witness: the single valid entry `g:h` fans out into the five
suffixed pairs. -/
theorem C2_action_fanout_witness :
    get_remappings_for_actions (.list (["g:h"].map YVal.str)) =
      .ok (specFanOut [("g", "h")]) :=
  C2_action_fanout ["g:h"] [("g", "h")] rfl

/-- The error, if any, that one entry of a `topics`/`services` list
triggers in `parse_section`: non-strings, strings that do not split on
`:` into exactly two parts, and strings with an empty stripped side. -/
def entryError (section_name : String) (v : YVal) : Option ValidationError :=
  match v with
  | .str s =>
    match pySplitColon s with
    | [a, b] =>
      if pyStrip a = "" || pyStrip b = "" then some (.emptyField section_name s)
      else Option.none
    | [] => some (.invalidFormat section_name s)
    | [_] => some (.invalidFormat section_name s)
    | _ :: _ :: _ :: _ => some (.invalidFormat section_name s)
  | .int n => some (.entryNotString section_name (pyTypeName (.int n)))
  | .bool b => some (.entryNotString section_name (pyTypeName (.bool b)))
  | .null => some (.entryNotString section_name (pyTypeName .null))
  | .list l => some (.entryNotString section_name (pyTypeName (.list l)))
  | .map m => some (.entryNotString section_name (pyTypeName (.map m)))

theorem goSection_first_error (name : String) :
    ∀ (pre : List YVal) (v : YVal) (post : List YVal) (e : ValidationError),
    (∀ u ∈ pre, entryError name u = Option.none) → entryError name v = some e →
    goSection name (pre ++ v :: post) = .error e := by
  intro pre
  induction pre with
  | nil =>
    intro v post e _ hv
    cases v with
    | str s =>
      cases hsp : pySplitColon s with
      | nil =>
        simp only [entryError, hsp, Option.some.injEq] at hv
        simp [goSection, hsp, hv]
      | cons a l1 =>
        cases l1 with
        | nil =>
          simp only [entryError, hsp, Option.some.injEq] at hv
          simp [goSection, hsp, hv]
        | cons b l2 =>
          cases l2 with
          | cons c l3 =>
            simp only [entryError, hsp, Option.some.injEq] at hv
            simp [goSection, hsp, hv]
          | nil =>
            simp only [entryError, hsp] at hv
            split at hv
            case isTrue hcond =>
              simp only [Option.some.injEq] at hv
              show goSection name (.str s :: post) = _
              simp only [goSection, hsp, if_pos hcond, hv]
            case isFalse hcond => exact absurd hv (by simp)
    | int n => simp only [entryError, Option.some.injEq] at hv; simp [goSection, hv]
    | bool b => simp only [entryError, Option.some.injEq] at hv; simp [goSection, hv]
    | null => simp only [entryError, Option.some.injEq] at hv; simp [goSection, hv]
    | list l => simp only [entryError, Option.some.injEq] at hv; simp [goSection, hv]
    | map m => simp only [entryError, Option.some.injEq] at hv; simp [goSection, hv]
  | cons u pre ih =>
    intro v post e hpre hv
    have hu : entryError name u = Option.none := hpre u (List.mem_cons_self _ _)
    have hrest : ∀ x ∈ pre, entryError name x = Option.none :=
      fun x hx => hpre x (List.mem_cons_of_mem _ hx)
    cases u with
    | str s =>
      cases hsp : pySplitColon s with
      | nil => simp only [entryError, hsp] at hu; exact Option.noConfusion hu
      | cons a l1 =>
        cases l1 with
        | nil => simp only [entryError, hsp] at hu; exact Option.noConfusion hu
        | cons b l2 =>
          cases l2 with
          | cons c l3 => simp only [entryError, hsp] at hu; exact Option.noConfusion hu
          | nil =>
            simp only [entryError, hsp] at hu
            split at hu
            case isTrue hcond => exact absurd hu (by simp)
            case isFalse hcond =>
              show goSection name (.str s :: (pre ++ v :: post)) = _
              simp only [goSection, hsp, if_neg hcond]
              rw [ih v post e hrest hv]
    | int n => exact Option.noConfusion hu
    | bool b => exact Option.noConfusion hu
    | null => exact Option.noConfusion hu
    | list l => exact Option.noConfusion hu
    | map m => exact Option.noConfusion hu

/-- C4: a present `topics`/`services` section that is not a list (and
not `None`) makes `parse_section` fail with the section-type error; and
in a present list section, the first entry that is not a string, does
not split on all `:` into exactly two parts, or has an empty side after
stripping, makes `parse_section` fail with the corresponding error
carrying the section name and (for string entries) the offending
entry. -/
theorem C4_section_validation :
    (∀ (rm : List (String × YVal)) (name : String) (v : YVal),
      lookupKey rm name = some v → v ≠ .null → (∀ l, v ≠ .list l) →
      parse_section rm name = .error (.sectionNotList name)) ∧
    (∀ (rm : List (String × YVal)) (name : String) (pre : List YVal) (v : YVal)
        (post : List YVal) (e : ValidationError),
      lookupKey rm name = some (.list (pre ++ v :: post)) →
      (∀ u ∈ pre, entryError name u = Option.none) →
      entryError name v = some e →
      parse_section rm name = .error e) := by
  constructor
  · intro rm name v hl hnull hlist
    cases v with
    | null => exact absurd rfl hnull
    | list l => exact absurd rfl (hlist l)
    | str s => simp [parse_section, hl]
    | int n => simp [parse_section, hl]
    | bool b => simp [parse_section, hl]
    | map m => simp [parse_section, hl]
  · intro rm name pre v post e hl hpre hv
    rw [parse_section, hl]
    exact goSection_first_error name pre v post e hpre hv

/-- C4 witness: a non-list `topics` section errors with the section-type
error, and the extra-colon entry `a:b:c` errors with the format error
naming the section and the entry. -/
theorem C4_section_validation_witness :
    parse_section [("topics", .str "x")] "topics" = .error (.sectionNotList "topics") ∧
    parse_section [("topics", .list [.str "a:b:c"])] "topics" =
      .error (.invalidFormat "topics" "a:b:c") :=
  ⟨C4_section_validation.1 _ "topics" (.str "x") rfl
      (fun h => YVal.noConfusion h) (fun _ h => YVal.noConfusion h),
   C4_section_validation.2 _ "topics" [] (.str "a:b:c") [] _ rfl
      (fun u hu => absurd hu (List.not_mem_nil u)) rfl⟩

/-- C8: a `None` remapping spec yields the empty list, and so does a
present dict spec in which all three sections are absent. -/
theorem C8_empty_remappings :
    get_remappings .null = .ok [] ∧
    (∀ rm : List (String × YVal),
      lookupKey rm "topics" = Option.none →
      lookupKey rm "services" = Option.none →
      lookupKey rm "actions" = Option.none →
      get_remappings (.map rm) = .ok []) := by
  constructor
  · rfl
  · intro rm ht hs ha
    simp [get_remappings, parse_section, ht, hs, ha]

/-- C8 witness: the empty dict spec yields the empty remapping list. -/
theorem C8_empty_remappings_witness : get_remappings (.map []) = .ok [] :=
  C8_empty_remappings.2 [] rfl rfl rfl

/-! ## Path expansion: frame and idempotence claims -/

/-- C7: the expander leaves every non-string, non-dict value (numbers,
booleans, `None`, lists) untouched, and does not descend into list
elements: a `package://` URI inside a list is never expanded, whatever
the package lookup is. -/
theorem C7_untouched_values :
    (∀ (lookup : String → Option String) (v : YVal),
      (∀ s, v ≠ .str s) → (∀ es, v ≠ .map es) → expandValue lookup v = some v) ∧
    (∀ lookup : String → Option String,
      expand_filenames lookup (.map [("p", .list [.str "package://foo/bar"])]) =
        some (.map [("p", .list [.str "package://foo/bar"])])) := by
  constructor
  · intro lookup v hstr hmap
    cases v with
    | str s => exact absurd rfl (hstr s)
    | map es => exact absurd rfl (hmap es)
    | int n => rfl
    | bool b => rfl
    | null => rfl
    | list l => rfl
  · intro lookup
    rfl

/-- C7 witness: a list value is returned untouched even under a lookup
that knows no package at all. -/
theorem C7_untouched_values_witness :
    expandValue (fun _ => Option.none) (.list [.str "package://foo/bar"]) =
      some (.list [.str "package://foo/bar"]) :=
  C7_untouched_values.1 (fun _ => Option.none) (.list [.str "package://foo/bar"])
    (fun _ h => YVal.noConfusion h) (fun _ h => YVal.noConfusion h)

mutual

/-- Neither pattern matches anywhere in the value (dicts checked
recursively; list and scalar values vacuously). -/
def noMatchValue : YVal → Bool
  | .str s => (searchPkg s).isNone && (searchFile s).isNone
  | .map entries => noMatchEntries entries
  | .int _ => true
  | .bool _ => true
  | .null => true
  | .list _ => true

/-- Neither pattern matches any string value of the entry list. -/
def noMatchEntries : List (String × YVal) → Bool
  | [] => true
  | (_, v) :: rest => noMatchValue v && noMatchEntries rest

end

theorem expandString_noMatch (lookup : String → Option String) (s : String)
    (h1 : (searchPkg s).isNone = true) (h2 : (searchFile s).isNone = true) :
    expandString lookup s = some s := by
  rw [Option.isNone_iff_eq_none] at h1 h2
  simp only [expandString, h1, h2]

mutual

theorem expandValue_noMatch (lookup : String → Option String) :
    ∀ v : YVal, noMatchValue v = true → expandValue lookup v = some v
  | .str s, h => by
    simp only [noMatchValue, Bool.and_eq_true] at h
    simp only [expandValue, expandString_noMatch lookup s h.1 h.2]
  | .map entries, h => by
    simp only [noMatchValue] at h
    simp only [expandValue, expandEntries_noMatch lookup entries h]
  | .int n, _ => rfl
  | .bool b, _ => rfl
  | .null, _ => rfl
  | .list l, _ => rfl

theorem expandEntries_noMatch (lookup : String → Option String) :
    ∀ entries : List (String × YVal), noMatchEntries entries = true →
    expandEntries lookup entries = some entries
  | [], _ => rfl
  | (k, v) :: rest, h => by
    simp only [noMatchEntries, Bool.and_eq_true] at h
    simp only [expandEntries, expandValue_noMatch lookup v h.1,
      expandEntries_noMatch lookup rest h.2]

end

/-- C9: on a parameter dict none of whose string values (at any dict
nesting depth) matches either pattern, the expander returns the dict
unchanged, and hence applying it a second time gives the same dict. -/
theorem C9_idempotent_no_match :
    ∀ (lookup : String → Option String) (m : List (String × YVal)),
    noMatchEntries m = true →
    expand_filenames lookup (.map m) = some (.map m) ∧
    (expand_filenames lookup (.map m)).bind (expand_filenames lookup) = some (.map m) := by
  intro lookup m h
  have h1 : expand_filenames lookup (.map m) = some (.map m) := by
    simp only [expand_filenames, expandEntries_noMatch lookup m h]
  refine ⟨h1, ?_⟩
  rw [h1]
  exact h1

/-- C9 witness: a dict with a plain string, a number, and a nested dict
is a fixed point of the expander, twice over. -/
theorem C9_idempotent_no_match_witness :
    expand_filenames (fun _ => Option.none)
      (.map [("a", .str "hello"), ("b", .int 3), ("c", .map [("d", .str "x")])]) =
      some (.map [("a", .str "hello"), ("b", .int 3), ("c", .map [("d", .str "x")])]) ∧
    (expand_filenames (fun _ => Option.none)
      (.map [("a", .str "hello"), ("b", .int 3), ("c", .map [("d", .str "x")])])).bind
        (expand_filenames (fun _ => Option.none)) =
      some (.map [("a", .str "hello"), ("b", .int 3), ("c", .map [("d", .str "x")])]) :=
  C9_idempotent_no_match (fun _ => Option.none)
    [("a", .str "hello"), ("b", .int 3), ("c", .map [("d", .str "x")])] rfl

/-! ## Path expansion: search lemmas -/

theorem data_append (s t : String) : (s ++ t).data = s.data ++ t.data := by
  cases s
  cases t
  rfl

theorem mk_data (s : String) : String.mk s.data = s := by
  cases s
  rfl

theorem str_data_ne_nil (s : String) (h : s ≠ "") : s.data ≠ [] := by
  intro hd
  exact h (by cases s; cases hd; rfl)

theorem isPrefixOf_append_self (l t : List Char) : l.isPrefixOf (l ++ t) = true := by
  induction l with
  | nil => simp [List.isPrefixOf]
  | cons c cs ih => simp [List.isPrefixOf, ih]

theorem matchPkgHere_at (p r : List Char) (hp : p ≠ [])
    (hps : ∀ c ∈ p, (c != '/') = true)
    (hr : r.takeWhile (fun c => c != '\n') ≠ []) :
    matchPkgHere (pkgScheme ++ (p ++ '/' :: r)) =
      some (p, r.takeWhile (fun c => c != '\n')) := by
  have hpre := isPrefixOf_append_self pkgScheme (p ++ '/' :: r)
  have hdrop : (pkgScheme ++ (p ++ '/' :: r)).drop pkgScheme.length = p ++ '/' :: r :=
    List.drop_left _ _
  have htake : (p ++ '/' :: r).takeWhile (fun c => c != '/') = p := by
    rw [List.takeWhile_append_of_pos hps]
    simp [List.takeWhile_cons]
  simp only [matchPkgHere, hpre, if_true, hdrop, htake]
  rw [List.drop_left]
  have hpe : p.isEmpty = false := by cases p with | nil => exact absurd rfl hp | cons a l => rfl
  have hre : (r.takeWhile (fun c => c != '\n')).isEmpty = false := by
    cases hco : r.takeWhile (fun c => c != '\n') with
    | nil => exact absurd hco hr
    | cons a l => rfl
  simp [hpe, hre]

theorem searchPkgAux_suffix_isSome (t : List Char) (v : List Char × List Char)
    (hm : matchPkgHere t = some v) :
    ∀ pre : List Char, (searchPkgAux (pre ++ t)).isSome = true := by
  intro pre
  induction pre with
  | nil =>
    cases t with
    | nil => exact absurd hm (by simp [matchPkgHere, pkgScheme])
    | cons c cs => simp [searchPkgAux, hm]
  | cons c cs ih =>
    show (searchPkgAux (c :: (cs ++ t))).isSome = true
    rw [searchPkgAux]
    cases hh : matchPkgHere (c :: (cs ++ t)) with
    | some w => rfl
    | none => exact ih

/-- No completed match of pattern 1 starts inside the prefix (at any
position strictly before the suffix `t`). -/
def noEarlierPkg : List Char → List Char → Bool
  | [], _ => true
  | c :: cs, t => (matchPkgHere (c :: (cs ++ t))).isNone && noEarlierPkg cs t

theorem searchPkgAux_skip (u t : List Char) (h : noEarlierPkg u t = true) :
    searchPkgAux (u ++ t) = searchPkgAux t := by
  induction u with
  | nil => rfl
  | cons c cs ih =>
    rw [noEarlierPkg, Bool.and_eq_true] at h
    show searchPkgAux (c :: (cs ++ t)) = searchPkgAux t
    rw [searchPkgAux, Option.isNone_iff_eq_none.mp h.1]
    exact ih h.2

theorem matchFileHere_at (r : List Char)
    (hr : r.takeWhile (fun c => c != '\n') ≠ []) :
    matchFileHere (fileScheme ++ '/' :: r) =
      some ('/' :: r.takeWhile (fun c => c != '\n')) := by
  have hpre := isPrefixOf_append_self fileScheme ('/' :: r)
  have hdrop : (fileScheme ++ '/' :: r).drop fileScheme.length = '/' :: r :=
    List.drop_left _ _
  have hre : (r.takeWhile (fun c => c != '\n')).isEmpty = false := by
    cases hco : r.takeWhile (fun c => c != '\n') with
    | nil => exact absurd hco hr
    | cons a l => rfl
  simp [matchFileHere, hpre, hdrop, hre]

theorem searchFileAux_suffix_isSome (t : List Char) (v : List Char)
    (hm : matchFileHere t = some v) :
    ∀ pre : List Char, (searchFileAux (pre ++ t)).isSome = true := by
  intro pre
  induction pre with
  | nil =>
    cases t with
    | nil => exact absurd hm (by simp [matchFileHere, fileScheme])
    | cons c cs => simp [searchFileAux, hm]
  | cons c cs ih =>
    show (searchFileAux (c :: (cs ++ t))).isSome = true
    rw [searchFileAux]
    cases hh : matchFileHere (c :: (cs ++ t)) with
    | some w => rfl
    | none => exact ih

/-- No completed match of pattern 2 starts inside the prefix. -/
def noEarlierFile : List Char → List Char → Bool
  | [], _ => true
  | c :: cs, t => (matchFileHere (c :: (cs ++ t))).isNone && noEarlierFile cs t

theorem searchFileAux_skip (u t : List Char) (h : noEarlierFile u t = true) :
    searchFileAux (u ++ t) = searchFileAux t := by
  induction u with
  | nil => rfl
  | cons c cs ih =>
    rw [noEarlierFile, Bool.and_eq_true] at h
    show searchFileAux (c :: (cs ++ t)) = searchFileAux t
    rw [searchFileAux, Option.isNone_iff_eq_none.mp h.1]
    exact ih h.2

theorem matchFileHere_startsSlash (s : List Char) (l : List Char)
    (h : matchFileHere s = some l) : ∃ rest, l = '/' :: rest := by
  rw [matchFileHere] at h
  split at h
  · split at h
    · dsimp only [] at h
      split at h
      · exact Option.noConfusion h
      · exact ⟨_, (Option.some.inj h).symm⟩
    · exact Option.noConfusion h
  · exact Option.noConfusion h

theorem expandString_of_searchPkg (lookup : String → Option String) (s : String)
    (pr : String × String) (h : searchPkg s = some pr) :
    expandString lookup s = (lookup pr.1).map (fun dir => pathJoin dir pr.2) := by
  simp only [expandString, h]
  cases hl : lookup pr.1 <;> simp [hl]

/-! ## Path expansion: claims C3, C6, C10 -/

/-- C3: every string value containing a substring matching
`package://{pkg}/{rest}` (anywhere in the string, not anchored) is
rewritten to `os.path.join(lookup(pkg), rest)` applied to the leftmost
match's groups; in particular `package://foo/bar/baz.txt` with
`lookup("foo") = "/opt/foo"` becomes `/opt/foo/bar/baz.txt`. -/
theorem C3_package_expansion :
    (∀ (lookup : String → Option String) (u p r : String),
      p ≠ "" → (∀ c ∈ p.data, c ≠ '/') → r ≠ "" → (∀ c ∈ r.data, c ≠ '\n') →
      (searchPkg (u ++ "package://" ++ p ++ "/" ++ r)).isSome = true ∧
      expandString lookup (u ++ "package://" ++ p ++ "/" ++ r) =
        (searchPkg (u ++ "package://" ++ p ++ "/" ++ r)).bind
          (fun pr => (lookup pr.1).map (fun dir => pathJoin dir pr.2))) ∧
    expand_filenames fooLookup (.map [("p", .str "package://foo/bar/baz.txt")]) =
      some (.map [("p", .str "/opt/foo/bar/baz.txt")]) := by
  constructor
  · intro lookup u p r hp hslash hr hnl
    have hdata : (u ++ "package://" ++ p ++ "/" ++ r).data =
        u.data ++ (pkgScheme ++ (p.data ++ '/' :: r.data)) := by
      simp [data_append, pkgScheme, List.append_assoc]
    have hps : ∀ c ∈ p.data, (c != '/') = true := fun c hc => by
      simpa [bne_iff_ne] using hslash c hc
    have htake : r.data.takeWhile (fun c => c != '\n') = r.data := by
      rw [List.takeWhile_eq_self_iff]
      intro c hc
      simpa [bne_iff_ne] using hnl c hc
    have hm := matchPkgHere_at p.data r.data (str_data_ne_nil p hp) hps
      (by rw [htake]; exact str_data_ne_nil r hr)
    have hsome : (searchPkgAux ((u ++ "package://" ++ p ++ "/" ++ r).data)).isSome = true := by
      rw [hdata]
      exact searchPkgAux_suffix_isSome _ _ hm u.data
    obtain ⟨w, hw⟩ := Option.isSome_iff_exists.mp hsome
    have hsp : searchPkg (u ++ "package://" ++ p ++ "/" ++ r) =
        some (String.mk w.1, String.mk w.2) := by
      rw [searchPkg, hw]
      rfl
    refine ⟨by simp [hsp], ?_⟩
    rw [expandString_of_searchPkg lookup _ _ hsp, hsp]
    rfl
  · rfl

/-- C3 witness: a match strictly inside `"x package://abc/def"` is found
and rewritten through the lookup and `os.path.join`. -/
theorem C3_package_expansion_witness :
    (searchPkg ("x " ++ "package://" ++ "abc" ++ "/" ++ "def")).isSome = true ∧
    expandString (fun _ => some "/D") ("x " ++ "package://" ++ "abc" ++ "/" ++ "def") =
      (searchPkg ("x " ++ "package://" ++ "abc" ++ "/" ++ "def")).bind
        (fun pr => ((fun _ => some "/D") pr.1).map (fun dir => pathJoin dir pr.2)) :=
  C3_package_expansion.1 (fun _ => some "/D") "x " "abc" "def"
    (by decide) (by decide) (by decide) (by decide)

theorem searchPkgAux_of_matchHere (t : List Char) (v : List Char × List Char)
    (hm : matchPkgHere t = some v) : searchPkgAux t = some v := by
  cases t with
  | nil => exact absurd hm (by simp [matchPkgHere, pkgScheme])
  | cons c cs => rw [searchPkgAux, hm]

theorem searchFileAux_of_matchHere (t : List Char) (v : List Char)
    (hm : matchFileHere t = some v) : searchFileAux t = some v := by
  cases t with
  | nil => exact absurd hm (by simp [matchFileHere, fileScheme])
  | cons c cs => rw [searchFileAux, hm]

theorem searchFileAux_sound (s : List Char) :
    ∀ l, searchFileAux s = some l → ∃ rest, l = '/' :: rest := by
  induction s with
  | nil => intro l h; exact Option.noConfusion h
  | cons c cs ih =>
    intro l h
    rw [searchFileAux] at h
    cases hh : matchFileHere (c :: cs) with
    | some v =>
      rw [hh] at h
      exact Option.some.inj h ▸ matchFileHere_startsSlash _ _ hh
    | none =>
      rw [hh] at h
      exact ih l h

/-- Package lookup knowing only package `a` at `/A`, used by the C6
counterexample. -/
def aLookup (name : String) : Option String :=
  if name = "a" then some "/A" else Option.none

/-- C6 (amended): every string value containing a substring matching
`file://{path}` with `path` starting with `/`, and containing no
`package://` match (pattern 1 is tried first), is rewritten to the
matched group itself — the scheme is stripped and the matched absolute
path stored verbatim; in particular `file:///etc/x.yaml` becomes
`/etc/x.yaml`. -/
theorem C6_file_expansion :
    (∀ (lookup : String → Option String) (u r : String),
      r ≠ "" → (∀ c ∈ r.data, c ≠ '\n') →
      searchPkg (u ++ "file:///" ++ r) = Option.none →
      (searchFile (u ++ "file:///" ++ r)).isSome = true ∧
      (searchFile (u ++ "file:///" ++ r)).all startsWithSlash = true ∧
      expandString lookup (u ++ "file:///" ++ r) = searchFile (u ++ "file:///" ++ r)) ∧
    expand_filenames fooLookup (.map [("p", .str "file:///etc/x.yaml")]) =
      some (.map [("p", .str "/etc/x.yaml")]) := by
  constructor
  · intro lookup u r hr hnl hpkg
    have hdata : (u ++ "file:///" ++ r).data = u.data ++ (fileScheme ++ '/' :: r.data) := by
      simp [data_append, fileScheme, List.append_assoc]
    have htake : r.data.takeWhile (fun c => c != '\n') = r.data := by
      rw [List.takeWhile_eq_self_iff]
      intro c hc
      simpa [bne_iff_ne] using hnl c hc
    have hm := matchFileHere_at r.data (by rw [htake]; exact str_data_ne_nil r hr)
    have hsome : (searchFileAux ((u ++ "file:///" ++ r).data)).isSome = true := by
      rw [hdata]
      exact searchFileAux_suffix_isSome _ _ hm u.data
    obtain ⟨w, hw⟩ := Option.isSome_iff_exists.mp hsome
    have hsf : searchFile (u ++ "file:///" ++ r) = some (String.mk w) := by
      rw [searchFile, hw]
      rfl
    obtain ⟨rest, hshape⟩ := searchFileAux_sound _ w hw
    refine ⟨by simp [hsf], ?_, ?_⟩
    · rw [hsf]
      subst hshape
      rfl
    · simp only [expandString, hpkg]
      rw [hsf]
  · rfl

/-- C6 witness: a `file:///` URI strictly inside a package-free string is
found, starts with a slash, and is stored as the whole value. -/
theorem C6_file_expansion_witness :
    (searchFile ("zz " ++ "file:///" ++ "etc/x.yaml")).isSome = true ∧
    (searchFile ("zz " ++ "file:///" ++ "etc/x.yaml")).all startsWithSlash = true ∧
    expandString (fun _ => Option.none) ("zz " ++ "file:///" ++ "etc/x.yaml") =
      searchFile ("zz " ++ "file:///" ++ "etc/x.yaml") :=
  C6_file_expansion.1 (fun _ => Option.none) "zz " "etc/x.yaml" (by decide) (by decide) rfl

/-- C6 counterexample: in a value containing both patterns, pattern 1
wins — the stored value is the `os.path.join` rewrite, not the
`file://` group, so the claim as stated fails. -/
theorem C6_file_expansion_counterexample :
    searchFile "package://a/b file:///x" = some "/x" ∧
    expandString aLookup "package://a/b file:///x" = some "/A/b file:///x" ∧
    ("/A/b file:///x" : String) ≠ "/x" :=
  ⟨rfl, rfl, by decide⟩

/-- C10 (amended): when the leftmost match of a pattern starts strictly
after the start of the value, the whole stored value is replaced by the
expansion of the match: the characters before the scheme are discarded,
and the characters after the scheme are absorbed into the matched path
and retained only up to (excluding) the first newline — the `.`-groups
of both patterns stop at a newline, so anything from a newline on is
discarded too. -/
theorem C10_interior_match :
    (∀ (lookup : String → Option String) (u p r dir : String),
      u ≠ "" →
      noEarlierPkg u.data ("package://" ++ p ++ "/" ++ r).data = true →
      p ≠ "" → (∀ c ∈ p.data, c ≠ '/') →
      r.data.takeWhile (fun c => c != '\n') ≠ [] →
      lookup p = some dir →
      expandString lookup (u ++ "package://" ++ p ++ "/" ++ r) =
        some (pathJoin dir (String.mk (r.data.takeWhile (fun c => c != '\n'))))) ∧
    (∀ (lookup : String → Option String) (u r : String),
      u ≠ "" →
      searchPkg (u ++ "file:///" ++ r) = Option.none →
      noEarlierFile u.data ("file:///" ++ r).data = true →
      r.data.takeWhile (fun c => c != '\n') ≠ [] →
      expandString lookup (u ++ "file:///" ++ r) =
        some (String.mk ('/' :: r.data.takeWhile (fun c => c != '\n')))) := by
  constructor
  · intro lookup u p r dir _ hne hp hslash htw hlk
    have htdata : ("package://" ++ p ++ "/" ++ r).data =
        pkgScheme ++ (p.data ++ '/' :: r.data) := by
      simp [data_append, pkgScheme, List.append_assoc]
    have hdata : (u ++ "package://" ++ p ++ "/" ++ r).data =
        u.data ++ (pkgScheme ++ (p.data ++ '/' :: r.data)) := by
      simp [data_append, pkgScheme, List.append_assoc]
    rw [htdata] at hne
    have hps : ∀ c ∈ p.data, (c != '/') = true := fun c hc => by
      simpa [bne_iff_ne] using hslash c hc
    have hm := matchPkgHere_at p.data r.data (str_data_ne_nil p hp) hps htw
    have hsp : searchPkg (u ++ "package://" ++ p ++ "/" ++ r) =
        some (p, String.mk (r.data.takeWhile (fun c => c != '\n'))) := by
      rw [searchPkg, hdata, searchPkgAux_skip u.data _ hne,
        searchPkgAux_of_matchHere _ _ hm]
      simp [mk_data]
    rw [expandString_of_searchPkg lookup _ _ hsp]
    simp [hlk]
  · intro lookup u r _ hpkg hne htw
    have htdata : ("file:///" ++ r).data = fileScheme ++ '/' :: r.data := by
      simp [data_append, fileScheme, List.append_assoc]
    have hdata : (u ++ "file:///" ++ r).data = u.data ++ (fileScheme ++ '/' :: r.data) := by
      simp [data_append, fileScheme, List.append_assoc]
    rw [htdata] at hne
    have hm := matchFileHere_at r.data htw
    have hsf : searchFile (u ++ "file:///" ++ r) =
        some (String.mk ('/' :: r.data.takeWhile (fun c => c != '\n'))) := by
      rw [searchFile, hdata, searchFileAux_skip u.data _ hne,
        searchFileAux_of_matchHere _ _ hm]
      rfl
    simp only [expandString, hpkg]
    rw [hsf]

/-- C10 witness: a match after a two-character prefix replaces the whole
value with the joined expansion; the prefix disappears. -/
theorem C10_interior_match_witness :
    expandString (fun _ => some "/V") ("x " ++ "package://" ++ "p" ++ "/" ++ "abc") =
      some (pathJoin "/V" (String.mk ("abc".data.takeWhile (fun c => c != '\n')))) :=
  C10_interior_match.1 (fun _ => some "/V") "x " "p" "abc" "/V" (by decide)
    (by decide) (by decide) (by decide) (by decide) rfl

/-- C10 counterexample: with value `Qpackage://p/a\nZ` the matched path
group stops at the newline, so the characters `\nZ` after the scheme are
discarded rather than retained, refuting the claim as stated. -/
theorem C10_interior_match_counterexample :
    searchPkg "Qpackage://p/a\nZ" = some ("p", "a") ∧
    expandString (fun _ => some "/P") "Qpackage://p/a\nZ" = some "/P/a" ∧
    ("/P/a" : String) ≠ "/P/a\nZ" :=
  ⟨rfl, rfl, by decide⟩
